import Mathlib

/-!
Shallow embedding of `input2cmds` (`src/main.rs`) and verification of its
specification.  Lines of text are embedded as `List Char`; machine integers
as `Nat` (u16) and `Int` (i32) with explicit range checks where the Rust
`parse` would reject out-of-range literals.
-/

namespace I2C

/-- A string of the embedded program, as a list of characters. -/
abbrev Str := List Char

/-- Rust `char::is_whitespace`: the Unicode `White_Space` property. -/
def rustIsWhitespace (c : Char) : Bool :=
  let n := c.toNat
  (9 ≤ n && n ≤ 13) || n == 32 || n == 133 || n == 160 || n == 5760 ||
  (8192 ≤ n && n ≤ 8202) || n == 8232 || n == 8233 || n == 8239 ||
  n == 8287 || n == 12288

/-- `line.split('#').next().unwrap_or("")`: the text before the first `#`
(the whole line when there is no `#`). -/
def stripComment : Str → Str
  | [] => []
  | c :: rest => if c == '#' then [] else c :: stripComment rest

/-- `line.find(':')` followed by the split: `some (before, after)` splits the
line at its first `':'` (the colon itself in neither part); `none` when the
line has no `':'`. -/
def splitColonAux : Str → Option (Str × Str)
  | [] => none
  | c :: rest =>
    if c == ':' then some ([], rest)
    else match splitColonAux rest with
         | none => none
         | some (before, after) => some (c :: before, after)

/-- The `while !colon.is_empty() && ...is_whitespace()` loop.  Each
iteration does `colon = &colon[1..]`, a byte slice of a `&str`: when the
leading whitespace character occupies more than one UTF-8 byte (every
`White_Space` character above U+0020 does), byte index 1 is not a
character boundary and the slice panics — `none`.  A one-byte (ASCII)
whitespace character is stripped whole; a non-whitespace head stops the
loop. -/
def dropLeadingWs : Str → Option Str
  | [] => some []
  | c :: rest =>
    if rustIsWhitespace c then
      if c.utf8Size == 1 then dropLeadingWs rest else none
    else some (c :: rest)

/-- The `if let Some(colon_pos) = line.find(':')` block: the pre-colon text,
and (when a colon exists) the post-colon text with leading whitespace
stripped; `none` when the trim loop panics on a multi-byte whitespace
character.  (`colon_pos` is the byte index of a one-byte character, so the
two slices at `colon_pos` itself cannot panic.) -/
def findColonSplit (l : Str) : Option (Str × Option Str) :=
  match splitColonAux l with
  | none => some (l, none)
  | some (before, after) =>
    match dropLeadingWs after with
    | none => none
    | some trimmed => some (before, some trimmed)

/-- `line.split(char::is_whitespace).collect()`: split on single whitespace
characters, keeping empty segments (Rust's `split` yields `[""]` on `""`,
and an empty first segment when the text starts with a separator). -/
def splitWs : Str → List Str
  | [] => [[]]
  | c :: rest =>
    if rustIsWhitespace c then [] :: splitWs rest
    else match splitWs rest with
         | [] => [[c]]
         | t :: ts => (c :: t) :: ts

/-- The full tokenisation of one configuration line: strip the comment,
split off the post-first-colon text, whitespace-tokenise the pre-colon
text, and push the colon text (if any) as one final token; `none` when the
colon trim panicked. -/
def splat (l : Str) : Option (List Str) :=
  match findColonSplit (stripComment l) with
  | none => none
  | some (pre, none) => some (splitWs pre)
  | some (pre, some colon) => some (splitWs pre ++ [colon])

/-- Value of an ASCII decimal digit, `none` for any other character. -/
def digitVal (c : Char) : Option Nat :=
  if '0' ≤ c && c ≤ '9' then some (c.toNat - 48) else none

/-- Accumulate decimal digits; `none` on the first non-digit. -/
def parseDigitsAux : Str → Nat → Option Nat
  | [], acc => some acc
  | c :: rest, acc =>
    match digitVal c with
    | none => none
    | some d => parseDigitsAux rest (acc * 10 + d)

/-- A non-empty all-digit string's value, `none` otherwise. -/
def parseDigits : Str → Option Nat
  | [] => none
  | s => parseDigitsAux s 0

/-- Rust `str::parse::<u16>()`: optional `+` sign, one or more decimal
digits, value below 2^16; a `-` sign is rejected for unsigned types. -/
def parseU16 (s : Str) : Option Nat :=
  match s with
  | '+' :: rest => (parseDigits rest).bind fun n => if n < 65536 then some n else none
  | '-' :: _ => none
  | _ => (parseDigits s).bind fun n => if n < 65536 then some n else none

/-- Rust `str::parse::<i32>()`: optional sign, one or more decimal digits,
value within the i32 range. -/
def parseI32 (s : Str) : Option Int :=
  match s with
  | '+' :: rest =>
    (parseDigits rest).bind fun n => if n ≤ 2147483647 then some (n : Int) else none
  | '-' :: rest =>
    (parseDigits rest).bind fun n => if n ≤ 2147483648 then some (-(n : Int)) else none
  | _ =>
    (parseDigits s).bind fun n => if n ≤ 2147483647 then some (n : Int) else none

/-- `struct InputMatch`: a parsed `if ... then ...` rule. -/
structure InputMatch where
  wants_type : Option Nat
  wants_code : Option Nat
  wants_value : Option Int
  command_to_run : Str
deriving DecidableEq, Repr

/-- One decoded `input_event`, keeping the three fields the program uses. -/
structure InputEvent where
  type_ : Nat
  code : Nat
  value : Int
deriving DecidableEq, Repr

/-- Error cases returned (as `anyhow!` values) by `load_config`'s line
parser. -/
inductive ErrKind where
  | devParam
  | multiType
  | invalidType
  | multiCode
  | invalidCode
  | multiValue
  | invalidValue
  | unknownIfTok (t : Str)
  | needsThen
  | putColon
  | unknownDirective (t : Str)
deriving DecidableEq, Repr

/-- Outcome of processing a single configuration line. `panicked` records
a Rust panic: either the colon-trim loop's `&colon[1..]` byte slice at a
non-character boundary, or the `if` directive's out-of-range
`&rest[1..]` slice. -/
inductive LineOut where
  | skip
  | spawnDev (p : Str)
  | rule (m : InputMatch)
  | parseErr (k : ErrKind)
  | openErr (p : Str)
  | panicked
deriving DecidableEq, Repr

def thenKw : Str := ['t', 'h', 'e', 'n']
def kwType : Str := ['t', 'y', 'p', 'e', '=']
def kwCode : Str := ['c', 'o', 'd', 'e', '=']
def kwValue : Str := ['v', 'a', 'l', 'u', 'e', '=']
def devKw : Str := ['d', 'e', 'v']
def ifKw : Str := ['i', 'f']

/-- The `while !rest.is_empty() && rest[0] != "then"` loop of the `if`
directive: consume `type=`/`code=`/`value=` tokens, rejecting duplicates
and bad integer literals; return the accumulated options together with the
unconsumed remainder (which starts with `then` when one was found). -/
def parseConds : List Str → Option Nat → Option Nat → Option Int →
    Except ErrKind (Option Nat × Option Nat × Option Int × List Str)
  | [], wt, wc, wv => .ok (wt, wc, wv, [])
  | el :: rest, wt, wc, wv =>
    if el == thenKw then .ok (wt, wc, wv, el :: rest)
    else if kwType.isPrefixOf el then
      match wt with
      | some _ => .error .multiType
      | none =>
        match parseU16 (el.drop 5) with
        | none => .error .invalidType
        | some x => parseConds rest (some x) wc wv
    else if kwCode.isPrefixOf el then
      match wc with
      | some _ => .error .multiCode
      | none =>
        match parseU16 (el.drop 5) with
        | none => .error .invalidCode
        | some x => parseConds rest wt (some x) wv
    else if kwValue.isPrefixOf el then
      match wv with
      | some _ => .error .multiValue
      | none =>
        match parseI32 (el.drop 6) with
        | none => .error .invalidValue
        | some x => parseConds rest wt wc (some x)
    else .error (.unknownIfTok el)

/-- The `"if"` arm of `load_config`, applied to `&splat[1..]`.  After the
condition loop the source does `rest = &rest[1..]` unconditionally; when
`rest` is empty that slice is out of range and the thread panics. -/
def ifDirective (toks : List Str) : LineOut :=
  match parseConds toks none none none with
  | .error k => .parseErr k
  | .ok (wt, wc, wv, rest) =>
    match rest with
    | [] => .panicked
    | _ :: rest' =>
      match rest' with
      | [] => .parseErr .needsThen
      | [cmd] => .rule ⟨wt, wc, wv, cmd⟩
      | _ :: _ :: _ => .parseErr .putColon

/-- Process one configuration line.  `devOpens p` tells whether
`File::open(p)` succeeds (the environment's contribution).  A panic in
the colon trim aborts before the tokens are ever examined. -/
def processLine (devOpens : Str → Bool) (l : Str) : LineOut :=
  match splat l with
  | none => .panicked
  | some [] => .skip
  | some (tok0 :: rest) =>
    if tok0 == ([] : Str) then .skip
    else if tok0 == devKw then
      match rest with
      | [p] => if devOpens p then .spawnDev p else .openErr p
      | _ => .parseErr .devParam
    else if tok0 == ifKw then ifDirective rest
    else .parseErr (.unknownDirective tok0)

/-- Rust `{:?}` rendering of a string, modelling the escapes for `"` and
`\` (other `{:?}` escapes are not exercised by any claim). -/
def rustDebugStr (t : Str) : Str :=
  '"' :: (t.flatMap fun c =>
    if c == '"' then ['\\', '"']
    else if c == '\\' then ['\\', '\\']
    else [c]) ++ ['"']

/-- Decimal rendering of a natural number, as Rust `{}` prints it. -/
def natDisp (n : Nat) : Str := Nat.toDigits 10 n

/-- The message text following the `"{}:{}: "` prefix of each `anyhow!`
error in `load_config`. -/
def errTail : ErrKind → Str
  | .devParam => "dev wants only one parameter".toList
  | .multiType => "multiple \"type=\"s".toList
  | .invalidType => "invalid \"type=\"".toList
  | .multiCode => "multiple \"code=\"".toList
  | .invalidCode => "invalid \"code=\"s".toList
  | .multiValue => "multiple \"value=\"s".toList
  | .invalidValue => "invalid \"value=\"".toList
  | .unknownIfTok t =>
    "wanted \"type=\", \"code=\", \"value\"=, or \"then\" after \"if\", saw ".toList
      ++ rustDebugStr t
  | .needsThen => "\"if\" needs a \"then\"".toList
  | .putColon => "put a colon after \"then\"".toList
  | .unknownDirective t => "Unknown config directive ".toList ++ rustDebugStr t

/-- `anyhow!("{}:{}: ...", path, line_number)`: the rendered parse error. -/
def renderErr (path : Str) (n : Nat) (k : ErrKind) : Str :=
  path ++ ':' :: natDisp n ++ ':' :: ' ' :: errTail k

/-- The `Display` text of the error produced when `File::open(dev_path)`
fails: `eprintln!("{}", x)` on an `anyhow` error shows only the outermost
context, `format!("opening device {:?}", dev_path)`. -/
def openErrMsg (p : Str) : Str := "opening device ".toList ++ rustDebugStr p

/-- Result of `load_config` (and of chaining it over several sources):
either the accumulated rules and spawned device paths, the rendered error
that `main` prints before `exit(1)`, or a panic. -/
inductive LoadResult where
  | ok (rules : List InputMatch) (devs : List Str)
  | fail (msg : Str)
  | panicked
deriving DecidableEq, Repr

/-- The `for line in reader.lines()` loop of `load_config`, with `n` the
1-based number of the next line. -/
def loadLines (devOpens : Str → Bool) (path : Str) (n : Nat) :
    List Str → List InputMatch → List Str → LoadResult
  | [], rules, devs => .ok rules devs
  | l :: ls, rules, devs =>
    match processLine devOpens l with
    | .skip => loadLines devOpens path (n + 1) ls rules devs
    | .spawnDev p => loadLines devOpens path (n + 1) ls rules (devs ++ [p])
    | .rule m => loadLines devOpens path (n + 1) ls (rules ++ [m]) devs
    | .parseErr k => .fail (renderErr path n k)
    | .openErr p => .fail (openErrMsg p)
    | .panicked => .panicked

/-- `load_config(path, ...)` on the given lines of text. -/
def loadConfig (devOpens : Str → Bool) (path : Str) (ls : List Str) : LoadResult :=
  loadLines devOpens path 1 ls [] []

/-- `for conf in free { load_config(...) }` in `main`: each source's rules
are appended to the one shared `matches` vector. -/
def runConfigs (devOpens : Str → Bool) :
    List (Str × List Str) → List InputMatch → List Str → LoadResult
  | [], rules, devs => .ok rules devs
  | (p, ls) :: rest, rules, devs =>
    match loadLines devOpens p 1 ls rules devs with
    | .ok rules' devs' => runConfigs devOpens rest rules' devs'
    | r => r

/-- The reader-thread loop body: events of type 0 (`EV_SYN`) and 4
(`EV_MSC`) hit `continue`; every other event is sent on the channel. -/
def readerLoop : List InputEvent → List InputEvent
  | [] => []
  | e :: rest =>
    if e.type_ == 0 || e.type_ == 4 then readerLoop rest
    else e :: readerLoop rest

/-- `match possibility.wants_type { Some(x) if event.type_ != x => continue,
_ => () }`. -/
def typeRejects (p : InputMatch) (e : InputEvent) : Bool :=
  match p.wants_type with
  | some x => e.type_ != x
  | none => false

/-- The corresponding `wants_code` check. -/
def codeRejects (p : InputMatch) (e : InputEvent) : Bool :=
  match p.wants_code with
  | some x => e.code != x
  | none => false

/-- The corresponding `wants_value` check. -/
def valueRejects (p : InputMatch) (e : InputEvent) : Bool :=
  match p.wants_value with
  | some x => e.value != x
  | none => false

/-- The `for possibility in matches.iter()` scan of the dispatch loop:
`command` after the loop (`Some` at the first non-rejected rule, set just
before `break`). -/
def firstMatch : List InputMatch → InputEvent → Option Str
  | [], _ => none
  | p :: rest, e =>
    if typeRejects p e then firstMatch rest e
    else if codeRejects p e then firstMatch rest e
    else if valueRejects p e then firstMatch rest e
    else some p.command_to_run

/-- The exit status of a finished child process: `success()` and the
`Display` text used by `" # {}"`. -/
structure ExitSt where
  success : Bool
  display : Str
deriving DecidableEq, Repr

/-- Observable steps of the dispatch loop: spawning `/bin/sh -c cmd`,
the `child.wait()` returning, and text printed to standard output. -/
inductive Action where
  | spawn (cmd : Str)
  | waited (cmd : Str)
  | out (s : Str)
deriving DecidableEq, Repr

/-- Decimal rendering of an `i32` as Rust `{}` prints it. -/
def intDisp (i : Int) : Str :=
  if i < 0 then '-' :: natDisp i.natAbs else natDisp i.natAbs

/-- `print!("if type={} code={} value={} then: {}", ...)` (no newline). -/
def matchLine (e : InputEvent) (cmd : Str) : Str :=
  "if type=".toList ++ natDisp e.type_ ++ " code=".toList ++ natDisp e.code ++
    " value=".toList ++ intDisp e.value ++ " then: ".toList ++ cmd

/-- `println!("if type={} code={} value={} then: ...", ...)`. -/
def templLine (e : InputEvent) : Str :=
  "if type=".toList ++ natDisp e.type_ ++ " code=".toList ++ natDisp e.code ++
    " value=".toList ++ intDisp e.value ++ " then: ...\n".toList

/-- `println!(" # OK")` or `println!(" # {}", exit_status)`. -/
def statusOut (st : ExitSt) : Str :=
  if st.success then " # OK\n".toList else " # ".toList ++ st.display ++ ['\n']

/-- One iteration of the dispatch loop on a received event, paired with the
exit status its command (if any) terminates with. -/
def handleEvent (verbose : Bool) (rules : List InputMatch)
    (p : InputEvent × ExitSt) : List Action :=
  match firstMatch rules p.1 with
  | some cmd =>
    (if verbose then [.out (matchLine p.1 cmd)] else [])
      ++ [.spawn cmd, .waited cmd, .out (statusOut p.2)]
  | none => if verbose then [.out (templLine p.1)] else []

/-- The `while let Ok(event) = event_rx.recv()` loop over the finite
sequence of events the queue delivers before every producer is gone. -/
def dispatchLoop (verbose : Bool) (rules : List InputMatch) :
    List (InputEvent × ExitSt) → List Action
  | [] => []
  | p :: ps => handleEvent verbose rules p ++ dispatchLoop verbose rules ps

/-- Outcome of `main` after option parsing: a configuration-load failure
printed to standard error followed by `exit(1)`, a panic during loading, or
the dispatch loop running to completion followed by `exit(1)`. -/
inductive MainOutcome where
  | configAborted (stderrMsg : Str) (code : Nat)
  | panicked
  | finished (trace : List Action) (code : Nat)
deriving DecidableEq, Repr

/-- `main` from the `load_config` loop onward: load every source, aborting
with exit code 1 on the first failure; otherwise run the dispatch loop on
the queued events and finish with `std::process::exit(1)`. -/
def runMain (devOpens : Str → Bool) (verbose : Bool)
    (sources : List (Str × List Str)) (queued : List (InputEvent × ExitSt)) :
    MainOutcome :=
  match runConfigs devOpens sources [] [] with
  | .fail msg => .configAborted msg 1
  | .panicked => .panicked
  | .ok rules _ => .finished (dispatchLoop verbose rules queued) 1

/-- The commands spawned in a trace, in order. -/
def spawnsOf (t : List Action) : List Str :=
  t.filterMap fun a => match a with | .spawn c => some c | _ => none

/-- The process-related actions of a trace (spawns and waits), dropping the
printed output. -/
def procsOf (t : List Action) : List Action :=
  t.filter fun a => match a with | .out _ => false | _ => true


/-- Helper: the spec-level notion of a rule matching an event: every set
field equals the event's corresponding field. -/
def specMatches (m : InputMatch) (e : InputEvent) : Prop :=
  (∀ x, m.wants_type = some x → e.type_ = x) ∧
  (∀ x, m.wants_code = some x → e.code = x) ∧
  (∀ x, m.wants_value = some x → e.value = x)

end I2C

namespace I2C

/-- Helper: the cons step of `firstMatch`, with the three rejection tests
joined into one boolean. -/
lemma firstMatch_cons (m : InputMatch) (rest : List InputMatch) (e : InputEvent) :
    firstMatch (m :: rest) e
      = if typeRejects m e || codeRejects m e || valueRejects m e then
          firstMatch rest e
        else some m.command_to_run := by
  by_cases h1 : typeRejects m e <;> by_cases h2 : codeRejects m e <;>
    by_cases h3 : valueRejects m e <;> simp [firstMatch, h1, h2, h3]

/-- Helper: the code's three rejection tests all fail exactly when the rule
matches in the spec's sense. -/
lemma specMatches_iff (m : InputMatch) (e : InputEvent) :
    specMatches m e ↔
      (typeRejects m e = false ∧ codeRejects m e = false ∧ valueRejects m e = false) := by
  obtain ⟨wt, wc, wv, cmd⟩ := m
  unfold specMatches typeRejects codeRejects valueRejects
  cases wt <;> cases wc <;> cases wv <;> simp [bne]

/-- Helper: the commands a single loop iteration spawns are exactly the
first match's command (if any). -/
lemma spawnsOf_handleEvent (v : Bool) (rules : List InputMatch) (e : InputEvent)
    (st : ExitSt) :
    spawnsOf (handleEvent v rules (e, st)) = (firstMatch rules e).toList := by
  cases h : firstMatch rules e <;> cases v <;>
    simp [handleEvent, h, spawnsOf]








/-- C1: for every event and rule table, the dispatch loop executes the
command of the earliest-declared rule all of whose set fields equal the
event's fields (wildcards constrain nothing); scanning stops at the first
match, and with no matching rule no command is spawned. -/
theorem c1_first_match_wins (rules : List InputMatch) (e : InputEvent) :
    (∀ c, firstMatch rules e = some c →
      ∃ pre m post, rules = pre ++ m :: post ∧ specMatches m e ∧
        c = m.command_to_run ∧ ∀ m' ∈ pre, ¬ specMatches m' e) ∧
    (firstMatch rules e = none → ∀ m ∈ rules, ¬ specMatches m e) ∧
    (∀ v st, spawnsOf (handleEvent v rules (e, st)) = (firstMatch rules e).toList) := by
  induction rules with
  | nil =>
    refine ⟨fun c hc => by simp [firstMatch] at hc,
      fun _ m hm => absurd hm (List.not_mem_nil m),
      fun v st => spawnsOf_handleEvent v [] e st⟩
  | cons m rest ih =>
    by_cases hm : specMatches m e
    · have hrej : (typeRejects m e || codeRejects m e || valueRejects m e) = false := by
        obtain ⟨h1, h2, h3⟩ := (specMatches_iff m e).mp hm
        simp [h1, h2, h3]
      refine ⟨?_, ?_, fun v st => spawnsOf_handleEvent v (m :: rest) e st⟩
      · intro c hc
        rw [firstMatch_cons, hrej] at hc
        simp only [Bool.false_eq_true, if_false, Option.some.injEq] at hc
        exact ⟨[], m, rest, rfl, hm, hc.symm, by simp⟩
      · intro hn
        rw [firstMatch_cons, hrej] at hn
        simp at hn
    · have hrej : (typeRejects m e || codeRejects m e || valueRejects m e) = true := by
        by_cases h1 : typeRejects m e <;> by_cases h2 : codeRejects m e <;>
          by_cases h3 : valueRejects m e <;>
          simp_all [specMatches_iff]
      refine ⟨?_, ?_, fun v st => spawnsOf_handleEvent v (m :: rest) e st⟩
      · intro c hc
        rw [firstMatch_cons, hrej] at hc
        simp only [if_true] at hc
        obtain ⟨pre, mm, post, hsplit, hspec, hcmd, hpre⟩ := ih.1 c hc
        refine ⟨m :: pre, mm, post, by rw [hsplit]; rfl, hspec, hcmd, ?_⟩
        intro m' hm'
        rcases List.mem_cons.mp hm' with rfl | h
        · exact hm
        · exact hpre m' h
      · intro hn m' hm'
        rw [firstMatch_cons, hrej] at hn
        simp only [if_true] at hn
        rcases List.mem_cons.mp hm' with rfl | h
        · exact hm
        · exact ih.2.1 hn m' h

/-- C2: the reader-thread loop forwards an event to the shared queue
exactly when it read it and its type is neither 0 (`EV_SYN`) nor 4
(`EV_MSC`); so no type-0 or type-4 event is ever sent, regardless of code
and value, and every event of any other type is sent. -/
theorem c2_syn_msc_filtered (evs : List InputEvent) (e : InputEvent) :
    e ∈ readerLoop evs ↔ e ∈ evs ∧ e.type_ ≠ 0 ∧ e.type_ ≠ 4 := by
  induction evs with
  | nil => simp [readerLoop]
  | cons a rest ih =>
    simp only [readerLoop]
    by_cases h : (a.type_ == 0 || a.type_ == 4) = true
    · rw [if_pos h]
      simp only [Bool.or_eq_true, beq_iff_eq] at h
      rw [ih]
      simp only [List.mem_cons]
      constructor
      · rintro ⟨he, h0, h4⟩
        exact ⟨Or.inr he, h0, h4⟩
      · rintro ⟨rfl | he, h0, h4⟩
        · rcases h with h | h
          · exact absurd h h0
          · exact absurd h h4
        · exact ⟨he, h0, h4⟩
    · rw [if_neg h]
      simp only [Bool.or_eq_true, beq_iff_eq, not_or] at h
      simp only [List.mem_cons, ih]
      constructor
      · rintro (rfl | ⟨he, h0, h4⟩)
        · exact ⟨Or.inl rfl, h.1, h.2⟩
        · exact ⟨Or.inr he, h0, h4⟩
      · rintro ⟨rfl | he, h0, h4⟩
        · exact Or.inl rfl
        · exact Or.inr ⟨he, h0, h4⟩

/-- C3: evaluating `load_config` at the failing input: an `if` line with no
`then` token at all makes the parser slice `&rest[1..]` out of range and
panic, instead of returning the `"if" needs a "then"` error; the duplicate
key and the multi-token raw command cases do return errors carrying the
source name and 1-based line number. -/
theorem c3_missing_then_panics :
    loadConfig (fun _ => true) "conf".toList ["if type=1".toList] = .panicked ∧
    loadConfig (fun _ => true) "conf".toList
        ["# c".toList, "if type=1 type=2 then: x".toList]
      = .fail "conf:2: multiple \"type=\"s".toList ∧
    loadConfig (fun _ => true) "conf".toList ["if type=1 then echo hi".toList]
      = .fail "conf:1: put a colon after \"then\"".toList := by
  refine ⟨by decide, by decide, by decide⟩

/-- C6 counterexample: with verbose mode off, executing a matched command
still prints the completion-status line, so the dispatch of a matched event
is not silent. -/
theorem c6_status_line_prints_when_not_verbose :
    dispatchLoop false [⟨none, none, none, ['x']⟩] [(⟨1, 2, 3⟩, ⟨true, []⟩)]
      = [.spawn ['x'], .waited ['x'], .out " # OK\n".toList] ∧
    (dispatchLoop false [⟨none, none, none, ['x']⟩] [(⟨1, 2, 3⟩, ⟨true, []⟩)]).filter
        (fun a => match a with | .out _ => true | _ => false) ≠ [] := by
  refine ⟨by decide, by decide⟩

/-- C6 amended: only the pre-execution diagnostic (event fields plus the
command about to run) is gated on verbose mode; the completion line
(` # OK` or ` # status`) is printed whether or not verbose is enabled. -/
theorem c6_verbose_gates_only_pre_line (v : Bool) (rules : List InputMatch)
    (e : InputEvent) (st : ExitSt) (cmd : Str)
    (h : firstMatch rules e = some cmd) :
    handleEvent v rules (e, st)
      = (if v then [.out (matchLine e cmd)] else [])
          ++ [.spawn cmd, .waited cmd, .out (statusOut st)] := by
  simp [handleEvent, h]

/-- C6 witness: a concrete non-verbose run of a matched event. -/
theorem c6_verbose_gates_only_pre_line_witness :
    handleEvent false [⟨none, none, none, ['y']⟩] (⟨0, 0, 0⟩, ⟨true, []⟩)
      = [.spawn ['y'], .waited ['y'], .out " # OK\n".toList] := by
  have h := c6_verbose_gates_only_pre_line false [⟨none, none, none, ['y']⟩]
    ⟨0, 0, 0⟩ ⟨true, []⟩ ['y'] (by decide)
  simpa using h

/-- C7: the dispatch loop's process actions are a concatenation of adjacent
spawn/wait pairs, one pair per matched event in queue order: a command's
exit status is always observed before the next event's command (or any
other process action) occurs, so no two commands ever run concurrently and
queued events are consumed strictly in arrival order. -/
theorem c7_commands_serialized (v : Bool) (rules : List InputMatch)
    (queued : List (InputEvent × ExitSt)) :
    procsOf (dispatchLoop v rules queued)
      = (queued.filterMap fun p => firstMatch rules p.1).flatMap
          fun c => [Action.spawn c, Action.waited c] := by
  induction queued with
  | nil => rfl
  | cons p ps ih =>
    simp only [dispatchLoop, procsOf, List.filter_append, List.filterMap_cons]
    cases h : firstMatch rules p.1 with
    | none =>
      simp only [handleEvent, h]
      cases v <;> simpa [procsOf] using ih
    | some cmd =>
      simp only [handleEvent, h, List.flatMap_cons]
      cases v <;> simp [procsOf] at ih ⊢ <;> exact ih

/-- C8: once the queue has delivered its (finite) stream of events and the
blocking receive fails, the dispatch loop ends and the process exits with
status 1; every `finished` outcome of `main` carries a non-zero exit
code. -/
theorem c8_drain_exits_failure (devOpens : Str → Bool) (v : Bool)
    (sources : List (Str × List Str)) (queued : List (InputEvent × ExitSt))
    (rules : List InputMatch) (devs : List Str)
    (h : runConfigs devOpens sources [] [] = .ok rules devs) :
    runMain devOpens v sources queued = .finished (dispatchLoop v rules queued) 1 ∧
    ∀ t c, runMain devOpens v sources queued = .finished t c → c ≠ 0 := by
  constructor
  · simp [runMain, h]
  · intro t c hc
    rw [runMain, h] at hc
    have : c = 1 := (MainOutcome.finished.injEq _ _ _ _).mp hc.symm |>.2
    omega

/-- C8 witness: a one-source, zero-event run finishing with exit code 1. -/
theorem c8_drain_exits_failure_witness :
    runMain (fun _ => true) false [(['c'], [])] [] = .finished [] 1 := by
  have h := (c8_drain_exits_failure (fun _ => true) false [(['c'], [])] [] [] []
    (by decide)).1
  simpa using h

/-- Helper: `splitWs` never returns an empty list of tokens. -/
lemma splitWs_cons (s : Str) : ∃ t ts, splitWs s = t :: ts := by
  induction s with
  | nil => exact ⟨[], [], rfl⟩
  | cons c r ih =>
    by_cases h : rustIsWhitespace c
    · exact ⟨[], splitWs r, by simp [splitWs, h]⟩
    · obtain ⟨t, ts, ht⟩ := ih
      exact ⟨c :: t, ts, by simp [splitWs, h, ht]⟩

/-- C9 counterexample: on the line `" x: \u00A0y"` (a no-break space
U+00A0 after the post-colon blank), the pre-colon text `" x"` begins with
a whitespace character, yet the line is not silently skipped: after
stripping the one-byte space the trim loop meets the two-byte U+00A0 and
`&colon[1..]` panics at a non-character boundary, aborting the process. -/
theorem c9_multibyte_ws_after_colon_panics :
    splitColonAux (stripComment " x: \u00A0y".toList)
      = some ([' ', 'x'], [' ', '\u00A0', 'y']) ∧
    rustIsWhitespace ' ' = true ∧ rustIsWhitespace '\u00A0' = true ∧
    processLine (fun _ => true) " x: \u00A0y".toList = .panicked ∧
    processLine (fun _ => true) " x: \u00A0y".toList ≠ .skip := by
  refine ⟨by decide, by decide, by decide, by decide, by decide⟩

/-- C9 amended: a configuration line whose text before the first colon
(after comment stripping) is empty or starts with a whitespace character
is silently skipped — no rule, no device spawn, no error, whatever else
the line contains — provided the colon trim completes (the line has no
colon, or the leading whitespace after its first colon is all one-byte);
when the trim meets a multi-byte whitespace character instead, the
process panics on the `&colon[1..]` byte slice rather than skipping. -/
theorem c9_blank_or_indented_line_skipped (devOpens : Str → Bool) (l : Str) :
    (∀ pre copt, findColonSplit (stripComment l) = some (pre, copt) →
      (pre = [] ∨ ∃ c rest, pre = c :: rest ∧ rustIsWhitespace c) →
      processLine devOpens l = .skip) ∧
    (findColonSplit (stripComment l) = none →
      processLine devOpens l = .panicked) := by
  constructor
  · intro pre copt hf h
    obtain ⟨ts0, hts0⟩ : ∃ ts0, splitWs pre = [] :: ts0 := by
      rcases h with h | ⟨c, rest, hpre, hws⟩
      · exact ⟨[], by rw [h]; rfl⟩
      · exact ⟨splitWs rest, by rw [hpre]; simp [splitWs, hws]⟩
    obtain ⟨ts, hts⟩ : ∃ ts, splat l = some ([] :: ts) := by
      cases copt with
      | none => exact ⟨ts0, by simp only [splat, hf, hts0]⟩
      | some ctok =>
        exact ⟨ts0 ++ [ctok], by simp only [splat, hf, hts0]; rfl⟩
    simp [processLine, hts]
  · intro hf
    simp [processLine, splat, hf]

/-- C9 witness: a line that holds a well-formed `dev` directive after two
leading blanks is skipped, not acted on. -/
theorem c9_blank_or_indented_line_skipped_witness :
    processLine (fun _ => true) "  dev /dev/input/event0".toList = .skip :=
  (c9_blank_or_indented_line_skipped (fun _ => true)
      "  dev /dev/input/event0".toList).1
    "  dev /dev/input/event0".toList none (by decide)
    (Or.inr ⟨' ', " dev /dev/input/event0".toList, by decide, by decide⟩)

/-- Helper: the remainder `parseConds` returns is a suffix of its input. -/
lemma parseConds_suffix (toks : List Str) :
    ∀ (wt wc : Option Nat) (wv : Option Int) (a b : Option Nat) (cc : Option Int)
      (r : List Str), parseConds toks wt wc wv = .ok (a, b, cc, r) → r <:+ toks := by
  induction toks with
  | nil =>
    intro wt wc wv a b cc r h
    simp only [parseConds, Except.ok.injEq, Prod.mk.injEq] at h
    rw [← h.2.2.2]
  | cons el rest ih =>
    intro wt wc wv a b cc r h
    simp only [parseConds] at h
    by_cases h0 : (el == thenKw) = true
    · rw [if_pos h0] at h
      simp only [Except.ok.injEq, Prod.mk.injEq] at h
      rw [← h.2.2.2]
    · rw [if_neg h0] at h
      by_cases h1 : kwType.isPrefixOf el
      · rw [if_pos h1] at h
        cases wt with
        | some x => simp at h
        | none =>
          cases hp : parseU16 (el.drop 5) with
          | none => rw [hp] at h; simp at h
          | some x =>
            rw [hp] at h
            exact (ih _ _ _ _ _ _ _ h).trans (List.suffix_cons el rest)
      · rw [if_neg h1] at h
        by_cases h2 : kwCode.isPrefixOf el
        · rw [if_pos h2] at h
          cases wc with
          | some x => simp at h
          | none =>
            cases hp : parseU16 (el.drop 5) with
            | none => rw [hp] at h; simp at h
            | some x =>
              rw [hp] at h
              exact (ih _ _ _ _ _ _ _ h).trans (List.suffix_cons el rest)
        · rw [if_neg h2] at h
          by_cases h3 : kwValue.isPrefixOf el
          · rw [if_pos h3] at h
            cases wv with
            | some x => simp at h
            | none =>
              cases hp : parseI32 (el.drop 6) with
              | none => rw [hp] at h; simp at h
              | some x =>
                rw [hp] at h
                exact (ih _ _ _ _ _ _ _ h).trans (List.suffix_cons el rest)
          · rw [if_neg h3] at h
            simp at h

/-- Helper: when the `if` directive produces a rule, the rule's command is
the directive's last token. -/
lemma ifDirective_rule_last (toks : List Str) (m : InputMatch)
    (h : ifDirective toks = .rule m) : toks.getLast? = some m.command_to_run := by
  unfold ifDirective at h
  cases hp : parseConds toks none none none with
  | error k => rw [hp] at h; simp at h
  | ok q =>
    obtain ⟨wt, wc, wv, r⟩ := q
    rw [hp] at h
    rcases r with _ | ⟨x, _ | ⟨cmd, _ | ⟨z, zs⟩⟩⟩
    · simp at h
    · simp at h
    · simp only [LineOut.rule.injEq] at h
      obtain ⟨t, ht⟩ := parseConds_suffix toks none none none wt wc wv [x, cmd] hp
      rw [← h]
      have : toks = (t ++ [x]) ++ [cmd] := by rw [← ht]; simp
      rw [this, List.getLast?_concat]
    · simp at h

/-- C4 counterexample: on the line `if then: a#b` the stored command is
`a`, not `a#b`: the `#` strip happens before the colon split, so a `#`
after the colon does truncate the command. -/
theorem c4_hash_truncates_command :
    loadConfig (fun _ => true) "conf".toList ["if then: a#b".toList]
      = .ok [⟨none, none, none, ['a']⟩] [] ∧ (['a'] : Str) ≠ "a#b".toList := by
  refine ⟨by decide, by decide⟩

/-- C4 amended: when an accepted `if` line contains a `:`, the stored
command is the text after the first `:` of the comment-stripped line
(everything at and after the first `#` having been removed first), with
leading whitespace trimmed (in particular the trim completed without a
multi-byte-whitespace panic); it may contain further `:` characters and
embedded whitespace, but never a `#`. -/
theorem c4_command_is_colon_tail (devOpens : Str → Bool) (l : Str) (m : InputMatch)
    (before after : Str)
    (hc : splitColonAux (stripComment l) = some (before, after))
    (hr : processLine devOpens l = .rule m) :
    dropLeadingWs after = some m.command_to_run := by
  cases hd : dropLeadingWs after with
  | none =>
    have hf : findColonSplit (stripComment l) = none := by
      simp [findColonSplit, hc, hd]
    simp [processLine, splat, hf] at hr
  | some t =>
    have hfc : findColonSplit (stripComment l) = some (before, some t) := by
      simp [findColonSplit, hc, hd]
    obtain ⟨t0, ts, hts⟩ := splitWs_cons before
    have hsplat : splat l = some (t0 :: (ts ++ [t])) := by
      simp only [splat, hfc, hts]
      rfl
    simp only [processLine, hsplat] at hr
    by_cases h0 : (t0 == ([] : Str)) = true
    · rw [if_pos h0] at hr; simp at hr
    · rw [if_neg h0] at hr
      by_cases h1 : (t0 == devKw) = true
      · rw [if_pos h1] at hr
        rcases hrest : ts ++ [t] with _ | ⟨p, _ | _⟩ <;> rw [hrest] at hr
        · simp at hr
        · cases hdev : devOpens p <;> simp [hdev] at hr
        · simp at hr
      · rw [if_neg h1] at hr
        by_cases h2 : (t0 == ifKw) = true
        · rw [if_pos h2] at hr
          have hlast := ifDirective_rule_last _ _ hr
          rw [List.getLast?_concat] at hlast
          exact hlast
        · rw [if_neg h2] at hr; simp at hr

/-- C4 witness: a concrete accepted line whose command contains both a
further colon and embedded whitespace. -/
theorem c4_command_is_colon_tail_witness :
    dropLeadingWs " echo a : b".toList
      = some (⟨some 1, none, none, "echo a : b".toList⟩ : InputMatch).command_to_run :=
  c4_command_is_colon_tail (fun _ => true) "if type=1 then: echo a : b".toList
    ⟨some 1, none, none, "echo a : b".toList⟩ "if type=1 then".toList
    " echo a : b".toList (by decide) (by decide)

/-- Helper: comment stripping leaves a `#`-free line unchanged. -/
lemma stripComment_id (l : Str) (h : ∀ c ∈ l, c ≠ '#') : stripComment l = l := by
  induction l with
  | nil => rfl
  | cons c r ih =>
    have hc : (c == '#') = false := by
      simp only [beq_eq_false_iff_ne]
      exact h c (List.mem_cons_self c r)
    simp [stripComment, hc, ih fun x hx => h x (List.mem_cons_of_mem c hx)]

/-- Helper: a colon-free line does not split. -/
lemma splitColonAux_none (l : Str) (h : ∀ c ∈ l, c ≠ ':') : splitColonAux l = none := by
  induction l with
  | nil => rfl
  | cons c r ih =>
    have hc : (c == ':') = false := by
      simp only [beq_eq_false_iff_ne]
      exact h c (List.mem_cons_self c r)
    simp [splitColonAux, hc, ih fun x hx => h x (List.mem_cons_of_mem c hx)]

/-- Helper: one `splitWs` step on a whitespace head. -/
lemma splitWs_cons_ws (c : Char) (r : Str) (hc : rustIsWhitespace c = true) :
    splitWs (c :: r) = [] :: splitWs r := by
  simp [splitWs, hc]

/-- Helper: one `splitWs` step on a non-whitespace head. -/
lemma splitWs_cons_nonws (c : Char) (r : Str) (hc : rustIsWhitespace c = false)
    (t : Str) (ts : List Str) (h : splitWs r = t :: ts) :
    splitWs (c :: r) = (c :: t) :: ts := by
  simp [splitWs, hc, h]

/-- Helper: a non-empty token without whitespace tokenises to itself. -/
lemma splitWs_single (l : Str) (hne : l ≠ [])
    (h : ∀ c ∈ l, rustIsWhitespace c = false) : splitWs l = [l] := by
  induction l with
  | nil => exact absurd rfl hne
  | cons c r ih =>
    have hc := h c (List.mem_cons_self c r)
    by_cases hr : r = []
    · subst hr; simp [splitWs, hc]
    · have := ih hr fun x hx => h x (List.mem_cons_of_mem c hx)
      simp [splitWs, hc, this]

/-- Helper: `{:?}` of a string without `"` or `\` just wraps it in
quotes. -/
lemma rustDebugStr_plain (p : Str) (h : ∀ c ∈ p, c ≠ '"' ∧ c ≠ '\\') :
    rustDebugStr p = '"' :: (p ++ ['"']) := by
  unfold rustDebugStr
  have hflat : (p.flatMap fun c =>
      if c == '"' then ['\\', '"']
      else if c == '\\' then ['\\', '\\']
      else [c]) = p := by
    induction p with
    | nil => rfl
    | cons c r ih =>
      have hc := h c (List.mem_cons_self c r)
      have ih2 := ih fun x hx => h x (List.mem_cons_of_mem c hx)
      have h1 : (c == '"') = false := beq_eq_false_iff_ne.mpr hc.1
      have h2 : (c == '\\') = false := beq_eq_false_iff_ne.mpr hc.2
      rw [List.flatMap_cons, h1, h2]
      simpa using ih2
  rw [hflat]
  simp

/-- C5 counterexample: on `dev /no/such/device` with the open failing, the
process aborts with exit code 1, but the message printed is only
`opening device "/no/such/device"`: it names the path, yet contains
neither the configuration source name nor the line number. -/
theorem c5_dev_error_lacks_source_and_line :
    runMain (fun _ => false) false
        [("conf".toList, ["dev /no/such/device".toList])] []
      = .configAborted "opening device \"/no/such/device\"".toList 1 ∧
    ("/no/such/device".toList <:+: "opening device \"/no/such/device\"".toList) ∧
    ¬ ("conf".toList <:+: "opening device \"/no/such/device\"".toList) ∧
    ¬ (['1'] <:+: "opening device \"/no/such/device\"".toList) := by
  refine ⟨by decide, by decide, by decide, by decide⟩

/-- C5 amended: a `dev` directive whose path cannot be opened aborts the
whole configuration load before the dispatch loop, with exit code 1 and an
error that names the path — but the message carries only the
`opening device` context, not the source name or line number. -/
theorem c5_dev_open_failure_aborts (devOpens : Str → Bool) (v : Bool)
    (name p : Str) (queued : List (InputEvent × ExitSt))
    (hopen : devOpens p = false) (hne : p ≠ [])
    (hp : ∀ c ∈ p, rustIsWhitespace c = false ∧ c ≠ '#' ∧ c ≠ ':' ∧
      c ≠ '"' ∧ c ≠ '\\') :
    runMain devOpens v [(name, [devKw ++ ' ' :: p])] queued
      = .configAborted (openErrMsg p) 1 ∧ p <:+: openErrMsg p := by
  have hstrip : stripComment ('d' :: 'e' :: 'v' :: ' ' :: p)
      = 'd' :: 'e' :: 'v' :: ' ' :: p := by
    apply stripComment_id
    intro c hc
    simp only [List.mem_cons] at hc
    rcases hc with rfl | rfl | rfl | rfl | hc
    · decide
    · decide
    · decide
    · decide
    · exact (hp c hc).2.1
  have hcolon : splitColonAux ('d' :: 'e' :: 'v' :: ' ' :: p) = none := by
    apply splitColonAux_none
    intro c hc
    simp only [List.mem_cons] at hc
    rcases hc with rfl | rfl | rfl | rfl | hc
    · decide
    · decide
    · decide
    · decide
    · exact (hp c hc).2.2.1
  have hp1 : splitWs p = [p] := splitWs_single p hne fun c hc => (hp c hc).1
  have hp2 : splitWs (' ' :: p) = [] :: [p] := by
    rw [splitWs_cons_ws ' ' p rfl, hp1]
  have hp3 := splitWs_cons_nonws 'v' (' ' :: p) rfl [] [p] hp2
  have hp4 := splitWs_cons_nonws 'e' ('v' :: ' ' :: p) rfl ['v'] [p] hp3
  have hp5 := splitWs_cons_nonws 'd' ('e' :: 'v' :: ' ' :: p) rfl ['e', 'v'] [p] hp4
  have hsplat : splat (devKw ++ ' ' :: p) = some [devKw, p] := by
    show splat ('d' :: 'e' :: 'v' :: ' ' :: p) = some [devKw, p]
    simp only [splat, findColonSplit, hstrip, hcolon, hp5]
    rfl
  have hsplat2 : splat ('d' :: 'e' :: 'v' :: ' ' :: p) = some [['d', 'e', 'v'], p] := by
    simpa [devKw] using hsplat
  have hline : processLine devOpens (devKw ++ ' ' :: p) = .openErr p := by
    simp [processLine, devKw, hsplat2, hopen]
  constructor
  · simp [runMain, runConfigs, loadLines, hline]
  · refine ⟨"opening device ".toList ++ ['"'], ['"'], ?_⟩
    rw [openErrMsg, rustDebugStr_plain p fun c hc => ⟨(hp c hc).2.2.2.1, (hp c hc).2.2.2.2⟩]
    simp

/-- C5 witness: the abort at a concrete unopenable path. -/
theorem c5_dev_open_failure_aborts_witness :
    runMain (fun _ => false) false [("conf".toList, ["dev /nodev".toList])] []
      = .configAborted (openErrMsg "/nodev".toList) 1 := by
  have h := (c5_dev_open_failure_aborts (fun _ => false) false "conf".toList
    "/nodev".toList [] rfl (by decide) (by decide)).1
  have heq : "dev /nodev".toList = devKw ++ ' ' :: "/nodev".toList := by decide
  rw [heq]
  exact h

/-- Helper: `parseConds` stops at a `then` token, returning it with the
rest. -/
lemma parseConds_then (rest : List Str) (wt wc : Option Nat) (wv : Option Int) :
    parseConds (thenKw :: rest) wt wc wv = .ok (wt, wc, wv, thenKw :: rest) := rfl

/-- Helper: `parseConds` consumes a `type=` token whose value parses. -/
lemma parseConds_type {s : Str} {T : Nat} (hs : parseU16 s = some T)
    (rest : List Str) (wc : Option Nat) (wv : Option Int) :
    parseConds ((kwType ++ s) :: rest) none wc wv = parseConds rest (some T) wc wv := by
  have h0 : ((kwType ++ s) == thenKw) = false := rfl
  have h1 : kwType.isPrefixOf (kwType ++ s) = true := by
    simp [kwType, List.isPrefixOf]
  have h2 : (kwType ++ s).drop 5 = s := rfl
  simp only [parseConds, h0, Bool.false_eq_true, if_false, h1, if_true, h2, hs]

/-- Helper: `parseConds` consumes a `code=` token whose value parses. -/
lemma parseConds_code {s : Str} {C : Nat} (hs : parseU16 s = some C)
    (rest : List Str) (wt : Option Nat) (wv : Option Int) :
    parseConds ((kwCode ++ s) :: rest) wt none wv = parseConds rest wt (some C) wv := by
  have h0 : ((kwCode ++ s) == thenKw) = false := rfl
  have ha : kwType.isPrefixOf (kwCode ++ s) = false := by
    simp [kwType, kwCode, List.isPrefixOf]
  have h1 : kwCode.isPrefixOf (kwCode ++ s) = true := by
    simp [kwCode, List.isPrefixOf]
  have h2 : (kwCode ++ s).drop 5 = s := rfl
  simp only [parseConds, h0, Bool.false_eq_true, if_false, ha, h1, if_true, h2, hs]

/-- Helper: `parseConds` consumes a `value=` token whose value parses. -/
lemma parseConds_value {s : Str} {V : Int} (hs : parseI32 s = some V)
    (rest : List Str) (wt wc : Option Nat) :
    parseConds ((kwValue ++ s) :: rest) wt wc none = parseConds rest wt wc (some V) := by
  have h0 : ((kwValue ++ s) == thenKw) = false := rfl
  have ha : kwType.isPrefixOf (kwValue ++ s) = false := by
    simp [kwType, kwValue, List.isPrefixOf]
  have hb : kwCode.isPrefixOf (kwValue ++ s) = false := by
    simp [kwCode, kwValue, List.isPrefixOf]
  have h1 : kwValue.isPrefixOf (kwValue ++ s) = true := by
    simp [kwValue, List.isPrefixOf]
  have h2 : (kwValue ++ s).drop 6 = s := rfl
  simp only [parseConds, h0, Bool.false_eq_true, if_false, ha, hb, h1, if_true, h2, hs]

/-- Helper: an `if` directive whose conditions end in `then` followed by
exactly one token yields the corresponding rule. -/
lemma ifDirective_rule (toks : List Str) (wt wc : Option Nat) (wv : Option Int)
    (cmd : Str)
    (h : parseConds toks none none none = .ok (wt, wc, wv, [thenKw, cmd])) :
    ifDirective toks = .rule ⟨wt, wc, wv, cmd⟩ := by
  simp [ifDirective, h]

/-- C10: the `type=`/`code=`/`value=` conditions of an `if` directive are
accepted in every order and in every combination before `then`, and every
order yields the same `InputMatch` as the canonical `type, code, value`
order. -/
theorem c10_conditions_any_order_any_combination (st sc sv cmd : Str)
    (T C : Nat) (V : Int)
    (ht : parseU16 st = some T) (hcd : parseU16 sc = some C)
    (hv : parseI32 sv = some V) :
    (ifDirective [kwType ++ st, kwCode ++ sc, kwValue ++ sv, thenKw, cmd]
        = .rule ⟨some T, some C, some V, cmd⟩) ∧
    (ifDirective [kwType ++ st, kwValue ++ sv, kwCode ++ sc, thenKw, cmd]
        = .rule ⟨some T, some C, some V, cmd⟩) ∧
    (ifDirective [kwCode ++ sc, kwType ++ st, kwValue ++ sv, thenKw, cmd]
        = .rule ⟨some T, some C, some V, cmd⟩) ∧
    (ifDirective [kwCode ++ sc, kwValue ++ sv, kwType ++ st, thenKw, cmd]
        = .rule ⟨some T, some C, some V, cmd⟩) ∧
    (ifDirective [kwValue ++ sv, kwType ++ st, kwCode ++ sc, thenKw, cmd]
        = .rule ⟨some T, some C, some V, cmd⟩) ∧
    (ifDirective [kwValue ++ sv, kwCode ++ sc, kwType ++ st, thenKw, cmd]
        = .rule ⟨some T, some C, some V, cmd⟩) ∧
    (ifDirective [kwType ++ st, kwCode ++ sc, thenKw, cmd]
        = .rule ⟨some T, some C, none, cmd⟩) ∧
    (ifDirective [kwCode ++ sc, kwType ++ st, thenKw, cmd]
        = .rule ⟨some T, some C, none, cmd⟩) ∧
    (ifDirective [kwType ++ st, kwValue ++ sv, thenKw, cmd]
        = .rule ⟨some T, none, some V, cmd⟩) ∧
    (ifDirective [kwValue ++ sv, kwType ++ st, thenKw, cmd]
        = .rule ⟨some T, none, some V, cmd⟩) ∧
    (ifDirective [kwCode ++ sc, kwValue ++ sv, thenKw, cmd]
        = .rule ⟨none, some C, some V, cmd⟩) ∧
    (ifDirective [kwValue ++ sv, kwCode ++ sc, thenKw, cmd]
        = .rule ⟨none, some C, some V, cmd⟩) ∧
    (ifDirective [kwType ++ st, thenKw, cmd] = .rule ⟨some T, none, none, cmd⟩) ∧
    (ifDirective [kwCode ++ sc, thenKw, cmd] = .rule ⟨none, some C, none, cmd⟩) ∧
    (ifDirective [kwValue ++ sv, thenKw, cmd] = .rule ⟨none, none, some V, cmd⟩) ∧
    (ifDirective [thenKw, cmd] = .rule ⟨none, none, none, cmd⟩) := by
  refine ⟨?_, ?_, ?_, ?_, ?_, ?_, ?_, ?_, ?_, ?_, ?_, ?_, ?_, ?_, ?_, ?_⟩
  · exact ifDirective_rule _ _ _ _ _
      (by rw [parseConds_type ht, parseConds_code hcd, parseConds_value hv,
        parseConds_then])
  · exact ifDirective_rule _ _ _ _ _
      (by rw [parseConds_type ht, parseConds_value hv, parseConds_code hcd,
        parseConds_then])
  · exact ifDirective_rule _ _ _ _ _
      (by rw [parseConds_code hcd, parseConds_type ht, parseConds_value hv,
        parseConds_then])
  · exact ifDirective_rule _ _ _ _ _
      (by rw [parseConds_code hcd, parseConds_value hv, parseConds_type ht,
        parseConds_then])
  · exact ifDirective_rule _ _ _ _ _
      (by rw [parseConds_value hv, parseConds_type ht, parseConds_code hcd,
        parseConds_then])
  · exact ifDirective_rule _ _ _ _ _
      (by rw [parseConds_value hv, parseConds_code hcd, parseConds_type ht,
        parseConds_then])
  · exact ifDirective_rule _ _ _ _ _
      (by rw [parseConds_type ht, parseConds_code hcd, parseConds_then])
  · exact ifDirective_rule _ _ _ _ _
      (by rw [parseConds_code hcd, parseConds_type ht, parseConds_then])
  · exact ifDirective_rule _ _ _ _ _
      (by rw [parseConds_type ht, parseConds_value hv, parseConds_then])
  · exact ifDirective_rule _ _ _ _ _
      (by rw [parseConds_value hv, parseConds_type ht, parseConds_then])
  · exact ifDirective_rule _ _ _ _ _
      (by rw [parseConds_code hcd, parseConds_value hv, parseConds_then])
  · exact ifDirective_rule _ _ _ _ _
      (by rw [parseConds_value hv, parseConds_code hcd, parseConds_then])
  · exact ifDirective_rule _ _ _ _ _
      (by rw [parseConds_type ht, parseConds_then])
  · exact ifDirective_rule _ _ _ _ _
      (by rw [parseConds_code hcd, parseConds_then])
  · exact ifDirective_rule _ _ _ _ _
      (by rw [parseConds_value hv, parseConds_then])
  · exact ifDirective_rule _ _ _ _ _ (by rw [parseConds_then])

/-- C10 witness: the `value, code, type` order at concrete values yields
the canonical rule. -/
theorem c10_conditions_any_order_any_combination_witness :
    ifDirective [kwValue ++ "-3".toList, kwCode ++ "5".toList,
        kwType ++ "1".toList, thenKw, ['x']]
      = .rule ⟨some 1, some 5, some (-3), ['x']⟩ := by
  have h := c10_conditions_any_order_any_combination "1".toList "5".toList
    "-3".toList ['x'] 1 5 (-3) (by decide) (by decide) (by decide)
  exact h.2.2.2.2.2.1

end I2C
